import Mathlib

/-!
Verification of the WandsStreetMap road-data acquisition/caching layer.

Shallow embedding of:
* `src/server/storage.ts` — geometry helpers, Overpass-response parsing,
  the in-memory road cache (`getRoadsByBounds`) and the highlight store;
* `src/client/src/hooks/useMapData.ts` — bounds expansion, the heuristic
  containment test and the debounce / rate-limit throttling layer.

Modelling choices:
* JavaScript numbers are modelled as rationals (`ℚ`); all comparisons and
  the fixed-precision rounding of `toFixed` are exact on rationals.
* The Haversine length is real-valued (`ℝ`), with `Math.atan2` embedded by
  its standard piecewise definition.
* `Map` objects are association lists in insertion order: `set` replaces an
  existing key in place (keeping its position) or appends; iteration order
  is list order, matching JavaScript `Map` iteration semantics.
* Network fetches are parameterised by their outcome: `some elements` for a
  successful, well-formed Overpass response, `none` for any failure
  (timeout/abort, non-ok status, malformed body) — all of which the source
  turns into a thrown error caught by the surrounding `catch`.
-/

namespace WandsMap

/-- A bounding box `{swLat, swLng, neLat, neLng}`, coordinates as rationals. -/
structure Box where
  swLat : ℚ
  swLng : ℚ
  neLat : ℚ
  neLng : ℚ
deriving DecidableEq, Repr

/-- JavaScript `x.toFixed(2)`, scaled by 100: the integer nearest to `100*q`,
ties toward `+∞` (ECMAScript picks the larger candidate on a tie). -/
def jsToFixed2 (q : ℚ) : ℤ := ⌊q * 100 + 1/2⌋

/-- Spec-side rounding to 4 decimal places (same tie rule), scaled by 10000.
Used only to compare the spec's claimed cache-key precision with the code's. -/
def jsToFixed4 (q : ℚ) : ℤ := ⌊q * 10000 + 1/2⌋

/-- Cache keys: the four box edges after `toFixed(2)` rounding
(`storage.ts` line 80), kept as scaled integers instead of strings. -/
def cacheKey (b : Box) : ℤ × ℤ × ℤ × ℤ :=
  (jsToFixed2 b.swLat, jsToFixed2 b.swLng, jsToFixed2 b.neLat, jsToFixed2 b.neLng)

/-- Parsing a stored cache key back into a box (`parseFloat` on the four
comma-separated `toFixed(2)` strings, `storage.ts` line 92); exact on `ℚ`. -/
def keyBox (k : ℤ × ℤ × ℤ × ℤ) : Box :=
  ⟨(k.1 : ℚ) / 100, (k.2.1 : ℚ) / 100, (k.2.2.1 : ℚ) / 100, (k.2.2.2 : ℚ) / 100⟩

/-- Degrees to radians (`deg2rad`). -/
noncomputable def deg2rad (deg : ℚ) : ℝ := (deg : ℝ) * (Real.pi / 180)

/-- `Math.atan2(y, x)` by its standard piecewise definition. -/
noncomputable def atan2 (y x : ℝ) : ℝ :=
  if 0 < x then Real.arctan (y / x)
  else if x < 0 ∧ 0 ≤ y then Real.arctan (y / x) + Real.pi
  else if x < 0 ∧ y < 0 then Real.arctan (y / x) - Real.pi
  else if x = 0 ∧ 0 < y then Real.pi / 2
  else if x = 0 ∧ y < 0 then -(Real.pi / 2)
  else 0

/-- Haversine great-circle distance in km (`calculateDistance`). -/
noncomputable def calculateDistance (lat1 lon1 lat2 lon2 : ℚ) : ℝ :=
  let R : ℝ := 6371
  let dLat := deg2rad (lat2 - lat1)
  let dLon := deg2rad (lon2 - lon1)
  let a := Real.sin (dLat / 2) * Real.sin (dLat / 2) +
    Real.cos (deg2rad lat1) * Real.cos (deg2rad lat2) *
    (Real.sin (dLon / 2) * Real.sin (dLon / 2))
  let c := 2 * atan2 (Real.sqrt a) (Real.sqrt (1 - a))
  R * c

/-- Sum of `calculateDistance` over consecutive coordinate pairs
(`calculateRoadLength`); 0 for fewer than two points. -/
noncomputable def calculateRoadLength : List (ℚ × ℚ) → ℝ
  | [] => 0
  | [_] => 0
  | p :: q :: rest =>
      calculateDistance p.1 p.2 q.1 q.2 + calculateRoadLength (q :: rest)

/-- A parsed road (`Road` in `shared/schema.ts`). -/
structure Road where
  id : String
  osmId : String
  name : String
  roadType : String
  length : ℝ
  coordinates : List (ℚ × ℚ)

/-- OSM highway type to display category (`getRoadType`). -/
def getRoadType (highwayType : String) : String :=
  if highwayType = "motorway" ∨ highwayType = "trunk" then "Motorway"
  else if highwayType = "primary" then "Primary"
  else if highwayType = "secondary" then "Secondary"
  else if highwayType = "tertiary" then "Tertiary"
  else if highwayType = "residential" then "Residential"
  else if highwayType = "service" then "Service"
  else if highwayType = "footway" ∨ highwayType = "path" ∨ highwayType = "cycleway"
    then "Path"
  else "Other"

/-- An element of the Overpass response: a node with an id and coordinates,
or a way with an id, a tag table and a node-id list. A way whose JSON lacks
`tags` is modelled by an empty tag table (both fail the `tags.highway`
truthiness test). -/
inductive OElement where
  | node (id : ℤ) (lat lon : ℚ)
  | way (id : ℤ) (tags : List (String × String)) (nodes : List ℤ)

/-- Tag lookup in a way's tag table. -/
def lookupTag (tags : List (String × String)) (k : String) : Option String :=
  (tags.find? (fun p => decide (p.1 = k))).map (fun p => p.2)

/-- JavaScript truthiness of an optional string property
(absent and empty string are falsy). -/
def truthyStr (o : Option String) : Bool :=
  match o with
  | some s => decide (s ≠ "")
  | none => false

/-- The `element.tags.name || 'Unnamed Road'` default. -/
def jsNameOf (tags : List (String × String)) : String :=
  match lookupTag tags ("name") with
  | some s => if s = "" then "Unnamed Road" else s
  | none => "Unnamed Road"

/-- First pass over the response: the node-id → coordinate table.
Later nodes with the same id overwrite earlier ones (`Map.set`), modelled by
prepending during the fold so that lookup finds the latest. -/
def nodesMapOf (es : List OElement) : List (ℤ × (ℚ × ℚ)) :=
  es.foldl (fun m e =>
    match e with
    | .node i la lo => (i, (la, lo)) :: m
    | .way _ _ _ => m) []

/-- Resolving a way's node ids through the node table, silently dropping
unresolvable ids, in way order. -/
def resolveNodes (m : List (ℤ × (ℚ × ℚ))) (nids : List ℤ) : List (ℚ × ℚ) :=
  nids.filterMap (fun nid => (m.find? (fun p => decide (p.1 = nid))).map (fun p => p.2))

/-- The `Road` built from a way element, if the way has a truthy `highway`
tag and at least one resolvable coordinate (`storage.ts` lines 176–202);
`none` for nodes and for dropped ways. -/
noncomputable def wayToRoad (m : List (ℤ × (ℚ × ℚ))) (e : OElement) : Option Road :=
  match e with
  | .node _ _ _ => none
  | .way wid tags nids =>
    match lookupTag tags ("highway") with
    | none => none
    | some hw =>
      if hw = "" then none
      else
        let coords := resolveNodes m nids
        if coords.isEmpty then none
        else some
          { id := "road-" ++ toString wid
            osmId := "way/" ++ toString wid
            name := jsNameOf tags
            roadType := getRoadType hw
            length := calculateRoadLength coords
            coordinates := coords }

/-- Second pass: one `Road` per way that has a truthy `highway` tag and at
least one resolvable coordinate (`storage.ts` lines 174–204). -/
noncomputable def parseRoads (es : List OElement) : List Road :=
  es.filterMap (wayToRoad (nodesMapOf es))

/-- The spec's eligibility condition on a response element: a way with a
truthy `highway` tag and at least one node id resolvable to a coordinate. -/
def eligibleWay (m : List (ℤ × (ℚ × ℚ))) (e : OElement) : Bool :=
  match e with
  | .node _ _ _ => false
  | .way _ tags nids =>
    truthyStr (lookupTag tags ("highway")) && !(resolveNodes m nids).isEmpty

/-- The road cache: an association list from rounded-box keys to road lists,
in insertion order (JavaScript `Map`). -/
abbrev Cache : Type := List ((ℤ × ℤ × ℤ × ℤ) × List Road)

/-- `Map.has`. -/
def cacheHas (c : Cache) (k : ℤ × ℤ × ℤ × ℤ) : Bool :=
  c.any (fun e => decide (e.1 = k))

/-- `Map.get(key) || []`. -/
def cacheGetD (c : Cache) (k : ℤ × ℤ × ℤ × ℤ) : List Road :=
  match c.find? (fun e => decide (e.1 = k)) with
  | some e => e.2
  | none => []

/-- JavaScript `Map.set` on an association list: replace an existing key in
place (keeping its position), else append. -/
def jsMapSet {κ ν : Type} [DecidableEq κ] (m : List (κ × ν)) (k : κ) (v : ν) :
    List (κ × ν) :=
  if m.any (fun e => decide (e.1 = k)) then
    m.map (fun e => if e.1 = k then (k, v) else e)
  else m ++ [(k, v)]

/-- `Map.set` for the road cache. -/
def cacheSet (c : Cache) (k : ℤ × ℤ × ℤ × ℤ) (v : List Road) : Cache :=
  jsMapSet c k v

/-- The containment test of the cache-overlap scan (`storage.ts` lines
96–101): the requested box lies inside the cached box relaxed outward by an
absolute margin of 0.01 degree on every edge. -/
def containsWithMargin (cached req : Box) : Bool :=
  decide (cached.swLat - 1/100 ≤ req.swLat) &&
  decide (cached.swLng - 1/100 ≤ req.swLng) &&
  decide (req.neLat ≤ cached.neLat + 1/100) &&
  decide (req.neLng ≤ cached.neLng + 1/100)

/-- The cache-overlap scan: first cache entry, in insertion order, whose
parsed box contains the requested box within the margin. -/
def findContaining (c : Cache) (b : Box) : Option (List Road) :=
  (c.find? (fun e => containsWithMargin (keyBox e.1) b)).map (fun e => e.2)

/-- `getRoadsByBounds` (`storage.ts` lines 78–214), parameterised by the
fetch outcome. Result: the returned roads, the cache afterwards, and whether
the fetcher was invoked. Resolution: exact rounded-key hit; else first
containment hit; else fetch — on success the parsed roads are cached under
the exact key and returned, on failure the `catch` returns `[]`. -/
noncomputable def getRoadsByBounds (cache : Cache) (b : Box)
    (fetch : Option (List OElement)) : List Road × Cache × Bool :=
  let key := cacheKey b
  if cacheHas cache key then (cacheGetD cache key, cache, false)
  else
    match findContaining cache b with
    | some roads => (roads, cache, false)
    | none =>
      match fetch with
      | some es =>
        let roads := parseRoads es
        (roads, cacheSet cache key roads, true)
      | none => ([], cache, true)

/-- `expandBounds` (`useMapData.ts` lines 15–35): `null` passes through;
otherwise each dimension's span times `bufferPercent / 100` is subtracted
from the south-west corner and added to the north-east corner. -/
def expandBounds (bounds : Option Box) (bufferPercent : ℚ) : Option Box :=
  match bounds with
  | none => none
  | some b =>
    let latDiff := b.neLat - b.swLat
    let lngDiff := b.neLng - b.swLng
    let latBuffer := latDiff * bufferPercent / 100
    let lngBuffer := lngDiff * bufferPercent / 100
    some ⟨b.swLat - latBuffer, b.swLng - lngBuffer,
          b.neLat + latBuffer, b.neLng + lngBuffer⟩

/-- `isWithinExistingBounds` (`useMapData.ts` lines 38–48): false when either
argument is `null`; otherwise each edge of the new bounds must not exceed the
corresponding existing edge relaxed outward by
`Math.abs(existingEdge * (1 - tolerance))`. -/
def isWithinExistingBounds (newBounds existingBounds : Option Box)
    (tolerance : ℚ) : Bool :=
  match newBounds, existingBounds with
  | some n, some e =>
      decide (e.swLat - |e.swLat * (1 - tolerance)| ≤ n.swLat) &&
      decide (e.swLng - |e.swLng * (1 - tolerance)| ≤ n.swLng) &&
      decide (n.neLat ≤ e.neLat + |e.neLat * (1 - tolerance)|) &&
      decide (n.neLng ≤ e.neLng + |e.neLng * (1 - tolerance)|)
  | _, _ => false

/-- State of the `useRoadsByBounds` throttling effect. `pending` is the
debounce timer (fire time and captured raw bounds), `applies` the times of
fired applies, most recent first. The query counter is not stored: because
each apply schedules one decrement exactly 10 s later, the counter read at
time `t` equals the number of applies `a` with `t - a < 10000`
(see `trailingCount`); a decrement due exactly at `t` is taken to fire
before the event handler runs. -/
structure ThrottleState where
  pending : Option (ℕ × Box)
  debounced : Option Box
  lastQueried : Option Box
  initialLoad : Bool
  applies : List ℕ
  lastQueryTime : ℕ
deriving DecidableEq, Repr

/-- The value of `queryCountRef` at time `t`: applies still inside the
trailing 10-second window. -/
def trailingCount (applies : List ℕ) (t : ℕ) : ℕ :=
  (applies.filter (fun a => decide (t - a < 10000))).length

/-- Firing the debounce timer at time `f` with captured raw bounds `b`
(`useMapData.ts` lines 89–112): expand by 50 % on initial load else 100 %,
record the expanded bounds as last queried, bump the query counter and the
last-query time. -/
def fireApply (s : ThrottleState) (f : ℕ) (b : Box) : ThrottleState :=
  { pending := none
    debounced := some b
    lastQueried := expandBounds (some b) (if s.initialLoad then 50 else 100)
    initialLoad := false
    applies := f :: s.applies
    lastQueryTime := f }

/-- A pending timer whose fire time has passed fires before the next event
is handled; at most one timer is ever pending. -/
def flushDue (s : ThrottleState) (t : ℕ) : ThrottleState :=
  match s.pending with
  | some fb => if fb.1 ≤ t then fireApply s fb.1 fb.2 else s
  | none => s

/-- The debounce delay chosen at event time `t` (`useMapData.ts` lines
76–87): 0 on initial load, else 500 ms, overridden to
`10000 - timeSinceLastQuery + 500` when the rolling counter has reached 3
and the last query was less than 10 s ago. -/
def computeDelay (s : ThrottleState) (t : ℕ) : ℕ :=
  let base := if s.initialLoad then 0 else 500
  if 3 ≤ trailingCount s.applies t ∧ t - s.lastQueryTime < 10000 then
    10000 - (t - s.lastQueryTime) + 500
  else base

/-- One run of the bounds effect (`useMapData.ts` lines 60–119) for a raw
bounds value arriving at time `t`: any due timer has fired first; the
pending timer is cleared; a `null` bounds resets the debounced bounds; a
bounds within the last queried expanded bounds (tolerance 0.8) is ignored;
otherwise a new apply is scheduled after `computeDelay`. -/
def handleEvent (s : ThrottleState) (t : ℕ) (bounds : Option Box) : ThrottleState :=
  let s1 := flushDue s t
  match bounds with
  | none => { s1 with pending := none, debounced := none }
  | some b =>
    if isWithinExistingBounds (some b) s1.lastQueried (4/5) then
      { s1 with pending := none }
    else
      { s1 with pending := some (t + computeDelay s1 t, b) }

/-- Mount-time state: no timer, empty history, `initialLoad` true and
`lastQueryTime` initialised to the mount time (`Date.now()`). -/
def initThrottle (t0 : ℕ) : ThrottleState :=
  { pending := none, debounced := none, lastQueried := none,
    initialLoad := true, applies := [], lastQueryTime := t0 }

/-- Processing a time-ordered list of raw bounds events. -/
def runEvents (s : ThrottleState) (events : List (ℕ × Option Box)) : ThrottleState :=
  events.foldl (fun st e => handleEvent st e.1 e.2) s

/-- After the last event the surviving timer, if any, eventually fires. -/
def finalFlush (s : ThrottleState) : ThrottleState :=
  match s.pending with
  | some fb => fireApply s fb.1 fb.2
  | none => s

/-- A whole session: mount at `t0`, events in order, final timer flush. -/
def runThrottle (t0 : ℕ) (events : List (ℕ × Option Box)) : ThrottleState :=
  finalFlush (runEvents (initThrottle t0) events)

/-- A road highlight record (`shared/schema.ts`). -/
structure RoadHighlight where
  id : ℕ
  osmId : String
  name : String
  roadType : String
  length : ℚ
  coordinates : List (ℚ × ℚ)
  createdAt : String
deriving DecidableEq, Repr

/-- A highlight as submitted by the caller: the record minus the
store-assigned `id` and `createdAt`. -/
structure InsertRoadHighlight where
  osmId : String
  name : String
  roadType : String
  length : ℚ
  coordinates : List (ℚ × ℚ)
deriving DecidableEq, Repr

/-- The highlight store's state: the `highlights` map (insertion order) and
the `currentId` counter, initially 1. -/
structure StoreState where
  highlights : List (ℕ × RoadHighlight)
  currentId : ℕ
deriving DecidableEq, Repr

/-- The store state at construction (`MemStorage` constructor). -/
def initStore : StoreState := { highlights := [], currentId := 1 }

/-- `Map.set` for the highlight map. -/
def hlSet (m : List (ℕ × RoadHighlight)) (k : ℕ) (v : RoadHighlight) :
    List (ℕ × RoadHighlight) :=
  jsMapSet m k v

/-- `saveRoadHighlight` (`storage.ts` lines 52–64): take the current id,
increment the counter, stamp `createdAt` with the current time `now`, store
and return the full record. -/
def saveRoadHighlight (s : StoreState) (h : InsertRoadHighlight) (now : String) :
    RoadHighlight × StoreState :=
  let r : RoadHighlight :=
    { id := s.currentId, osmId := h.osmId, name := h.name,
      roadType := h.roadType, length := h.length,
      coordinates := h.coordinates, createdAt := now }
  (r, { highlights := hlSet s.highlights s.currentId r,
        currentId := s.currentId + 1 })

/-- `getRoadHighlight` (`storage.ts` lines 70–72): `Map.get`. -/
def getRoadHighlight (s : StoreState) (id : ℕ) : Option RoadHighlight :=
  (s.highlights.find? (fun e => decide (e.1 = id))).map (fun e => e.2)

/-- `deleteRoadHighlight` (`storage.ts` lines 74–76): `Map.delete`, returning
whether an entry existed; never throws. -/
def deleteRoadHighlight (s : StoreState) (id : ℕ) : Bool × StoreState :=
  (s.highlights.any (fun e => decide (e.1 = id)),
   { s with highlights := s.highlights.filter (fun e => decide (e.1 ≠ id)) })

/-- An operation against the highlight store, for reasoning about traces. -/
inductive StoreOp where
  | save (h : InsertRoadHighlight) (now : String)
  | erase (id : ℕ)

/-- Running one store operation. -/
def runStoreOp (s : StoreState) (op : StoreOp) : StoreState :=
  match op with
  | .save h now => (saveRoadHighlight s h now).2
  | .erase id => (deleteRoadHighlight s id).2

/-- Running a trace of store operations from a state. -/
def runStoreOps (s : StoreState) (ops : List StoreOp) : StoreState :=
  ops.foldl runStoreOp s

/-- Number of saves in a trace. -/
def countSaves (ops : List StoreOp) : ℕ :=
  ops.countP (fun op => match op with | .save _ _ => true | .erase _ => false)

/-- A sample bounding box, used to instantiate universally quantified
theorems at a concrete input. -/
def sampleBox : Box := ⟨51.45, -0.20, 51.46, -0.19⟩

section CacheLemmas

/-- Exact-hit path of `getRoadsByBounds`. -/
theorem getRoads_exact (cache : Cache) (b : Box) (fetch : Option (List OElement))
    (h : cacheHas cache (cacheKey b) = true) :
    getRoadsByBounds cache b fetch = (cacheGetD cache (cacheKey b), cache, false) := by
  simp [getRoadsByBounds, h]

/-- Containment-hit path of `getRoadsByBounds`. -/
theorem getRoads_contain (cache : Cache) (b : Box) (fetch : Option (List OElement))
    (roads : List Road) (h : cacheHas cache (cacheKey b) = false)
    (hc : findContaining cache b = some roads) :
    getRoadsByBounds cache b fetch = (roads, cache, false) := by
  simp [getRoadsByBounds, h, hc]

/-- Successful-fetch path of `getRoadsByBounds`. -/
theorem getRoads_fetch (cache : Cache) (b : Box) (es : List OElement)
    (h : cacheHas cache (cacheKey b) = false)
    (hc : findContaining cache b = none) :
    getRoadsByBounds cache b (some es) =
      (parseRoads es, cacheSet cache (cacheKey b) (parseRoads es), true) := by
  simp [getRoadsByBounds, h, hc]

/-- Failed-fetch path of `getRoadsByBounds`. -/
theorem getRoads_fail (cache : Cache) (b : Box)
    (h : cacheHas cache (cacheKey b) = false)
    (hc : findContaining cache b = none) :
    getRoadsByBounds cache b none = ([], cache, true) := by
  simp [getRoadsByBounds, h, hc]

/-- The fetcher is invoked exactly when both cache paths miss. -/
theorem getRoads_called_iff (cache : Cache) (b : Box) (fetch : Option (List OElement)) :
    (getRoadsByBounds cache b fetch).2.2 = true ↔
      cacheHas cache (cacheKey b) = false ∧ findContaining cache b = none := by
  by_cases h : cacheHas cache (cacheKey b) = true
  · simp [getRoads_exact cache b fetch h, h]
  · rcases hc : findContaining cache b with _ | roads
    · rcases fetch with _ | es
      · simp [getRoads_fail cache b (by simpa using h) hc, (by simpa using h : _), hc]
      · simp [getRoads_fetch cache b es (by simpa using h) hc, (by simpa using h : _), hc]
    · simp [getRoads_contain cache b fetch roads (by simpa using h) hc, hc]

end CacheLemmas

/-- C3: When the remote fetch inside `getRoadsByBounds` fails (the failure
outcome covers timeout/abort, non-success HTTP status and malformed
responses, all of which raise into the surrounding `catch`), the error is
absorbed in this layer and the caller receives the empty road list; the
function is total, so no exception propagates. The hypothesis states that
the fetch was actually performed (both cache paths missed). -/
theorem C3_fetch_failure_returns_empty (cache : Cache) (b : Box)
    (hcalled : (getRoadsByBounds cache b none).2.2 = true) :
    getRoadsByBounds cache b none = ([], cache, true) := by
  rcases (getRoads_called_iff cache b none).mp hcalled with ⟨h1, h2⟩
  exact getRoads_fail cache b h1 h2

/-- Witness for C3 at the empty cache and the sample box. -/
theorem C3_fetch_failure_returns_empty_witness :
    (getRoadsByBounds [] sampleBox none).2.2 = true ∧
      getRoadsByBounds [] sampleBox none = ([], [], true) :=
  ⟨rfl, C3_fetch_failure_returns_empty [] sampleBox rfl⟩

/-- C10: A failed fetch leaves the road cache unchanged — in particular no
entry is stored under the request's rounded key, which was and stays absent,
so repeating the request finds no memoized empty result and invokes the
fetcher again. The hypothesis states that the failing fetch was actually
performed (both cache paths missed). -/
theorem C10_failure_not_cached (cache : Cache) (b : Box)
    (hcalled : (getRoadsByBounds cache b none).2.2 = true) :
    (getRoadsByBounds cache b none).2.1 = cache ∧
      cacheHas cache (cacheKey b) = false ∧
      (∀ fetch2 : Option (List OElement),
        (getRoadsByBounds cache b fetch2).2.2 = true) := by
  rcases (getRoads_called_iff cache b none).mp hcalled with ⟨h1, h2⟩
  refine ⟨by simp [getRoads_fail cache b h1 h2], h1, ?_⟩
  intro fetch2
  exact (getRoads_called_iff cache b fetch2).mpr ⟨h1, h2⟩

/-- Witness for C10 at the empty cache and the sample box. -/
theorem C10_failure_not_cached_witness :
    (getRoadsByBounds [] sampleBox none).2.2 = true ∧
      ((getRoadsByBounds [] sampleBox none).2.1 = [] ∧
        cacheHas [] (cacheKey sampleBox) = false ∧
        (∀ fetch2 : Option (List OElement),
          (getRoadsByBounds [] sampleBox fetch2).2.2 = true)) :=
  ⟨rfl, C10_failure_not_cached [] sampleBox rfl⟩

section StoreLemmas

/-- `runStoreOps` advances `currentId` by exactly the number of saves;
deletions never touch the counter. -/
theorem currentId_runStoreOps (ops : List StoreOp) :
    ∀ s : StoreState, (runStoreOps s ops).currentId = s.currentId + countSaves ops := by
  induction ops with
  | nil =>
    intro s
    simp [runStoreOps, countSaves]
  | cons op tl ih =>
    intro s
    have hstep : runStoreOps s (op :: tl) = runStoreOps (runStoreOp s op) tl := rfl
    rw [hstep, ih]
    cases op with
    | save hh hnow =>
      simp [runStoreOp, saveRoadHighlight, countSaves, List.countP_cons]
      omega
    | erase i =>
      simp [runStoreOp, deleteRoadHighlight, countSaves, List.countP_cons]

/-- In the replace branch of `jsMapSet`, lookup finds the replacement. -/
theorem find?_map_replace {κ ν : Type} [DecidableEq κ] (k : κ) (v : ν) :
    ∀ m : List (κ × ν), m.any (fun e => decide (e.1 = k)) = true →
      ((m.map (fun e => if e.1 = k then (k, v) else e)).find?
        (fun e => decide (e.1 = k))) = some (k, v) := by
  intro m
  induction m with
  | nil => simp
  | cons a tl ih =>
    intro hany
    by_cases ha : a.1 = k
    · simp [List.find?, ha]
    · have htl : tl.any (fun e => decide (e.1 = k)) = true := by
        simpa [List.any_cons, ha] using hany
      simpa [List.find?, ha] using ih htl

/-- In the append branch of `jsMapSet`, lookup finds the appended record. -/
theorem find?_append_fresh {κ ν : Type} [DecidableEq κ] (k : κ) (v : ν) :
    ∀ m : List (κ × ν), m.any (fun e => decide (e.1 = k)) = false →
      ((m ++ [(k, v)]).find? (fun e => decide (e.1 = k))) = some (k, v) := by
  intro m
  induction m with
  | nil => simp
  | cons a tl ih =>
    intro hany
    have ha : ¬ a.1 = k := by
      intro h
      simp [List.any_cons, h] at hany
    have htl : tl.any (fun e => decide (e.1 = k)) = false := by
      simpa [List.any_cons, ha] using hany
    simpa [List.find?, ha] using ih htl

/-- After `jsMapSet m k v`, lookup of `k` yields exactly `(k, v)`. -/
theorem find?_jsMapSet {κ ν : Type} [DecidableEq κ] (m : List (κ × ν)) (k : κ) (v : ν) :
    ((jsMapSet m k v).find? (fun e => decide (e.1 = k))) = some (k, v) := by
  unfold jsMapSet
  cases h : m.any (fun e => decide (e.1 = k)) with
  | true => simpa [h] using find?_map_replace k v m h
  | false => simpa [h] using find?_append_fresh k v m h

/-- After deleting key `k`, no entry with key `k` remains. -/
theorem any_after_filter_ne {κ ν : Type} [DecidableEq κ] (m : List (κ × ν)) (k : κ) :
    ((m.filter (fun e => decide (e.1 ≠ k))).any (fun e => decide (e.1 = k))) = false := by
  rw [List.any_eq_false]
  intro x hx
  have := (List.mem_filter.mp hx).2
  simp at this ⊢
  exact this

/-- After `jsMapSet m k v`, key `k` is present. -/
theorem any_jsMapSet {κ ν : Type} [DecidableEq κ] (m : List (κ × ν)) (k : κ) (v : ν) :
    ((jsMapSet m k v).any (fun e => decide (e.1 = k))) = true := by
  rw [List.any_eq_true]
  exact ⟨(k, v), List.mem_of_find?_eq_some (find?_jsMapSet m k v), by simp⟩

end StoreLemmas

/-- C8: Against any state reached by a trace of saves and deletes from the
freshly constructed store, `saveRoadHighlight` assigns the next sequential
id — 1 plus the number of saves so far, hence starting at 1, monotonic and
never reused even after deletions — stamps the record with the supplied
current time, stores it so that `getRoadHighlight` round-trips every
caller-supplied field exactly, and `deleteRoadHighlight` on the fresh id
returns `true` exactly once and `false` the second time, without failing. -/
theorem C8_highlight_store (ops : List StoreOp) (h : InsertRoadHighlight)
    (now : String) :
    ((saveRoadHighlight (runStoreOps initStore ops) h now).1.id = countSaves ops + 1) ∧
    ((saveRoadHighlight (runStoreOps initStore ops) h now).1.osmId = h.osmId ∧
     (saveRoadHighlight (runStoreOps initStore ops) h now).1.name = h.name ∧
     (saveRoadHighlight (runStoreOps initStore ops) h now).1.roadType = h.roadType ∧
     (saveRoadHighlight (runStoreOps initStore ops) h now).1.length = h.length ∧
     (saveRoadHighlight (runStoreOps initStore ops) h now).1.coordinates = h.coordinates ∧
     (saveRoadHighlight (runStoreOps initStore ops) h now).1.createdAt = now) ∧
    (getRoadHighlight (saveRoadHighlight (runStoreOps initStore ops) h now).2
        (saveRoadHighlight (runStoreOps initStore ops) h now).1.id =
      some (saveRoadHighlight (runStoreOps initStore ops) h now).1) ∧
    ((deleteRoadHighlight (saveRoadHighlight (runStoreOps initStore ops) h now).2
        (saveRoadHighlight (runStoreOps initStore ops) h now).1.id).1 = true) ∧
    ((deleteRoadHighlight
        (deleteRoadHighlight (saveRoadHighlight (runStoreOps initStore ops) h now).2
          (saveRoadHighlight (runStoreOps initStore ops) h now).1.id).2
        (saveRoadHighlight (runStoreOps initStore ops) h now).1.id).1 = false) := by
  set s := runStoreOps initStore ops with hs
  have hid : (saveRoadHighlight s h now).1.id = countSaves ops + 1 := by
    have hc := currentId_runStoreOps ops initStore
    rw [← hs] at hc
    simp [initStore] at hc
    show s.currentId = countSaves ops + 1
    omega
  have hfind := find?_jsMapSet s.highlights s.currentId (saveRoadHighlight s h now).1
  refine ⟨hid, ⟨rfl, rfl, rfl, rfl, rfl, rfl⟩, ?_, ?_, ?_⟩
  · show ((jsMapSet s.highlights s.currentId (saveRoadHighlight s h now).1).find?
        (fun e => decide (e.1 = s.currentId))).map (fun e => e.2) =
      some (saveRoadHighlight s h now).1
    rw [hfind]
    rfl
  · show (jsMapSet s.highlights s.currentId (saveRoadHighlight s h now).1).any
        (fun e => decide (e.1 = s.currentId)) = true
    rw [List.any_eq_true]
    exact ⟨(s.currentId, (saveRoadHighlight s h now).1),
      List.mem_of_find?_eq_some hfind, by simp⟩
  · show ((jsMapSet s.highlights s.currentId (saveRoadHighlight s h now).1).filter
        (fun e => decide (e.1 ≠ s.currentId))).any
        (fun e => decide (e.1 = s.currentId)) = false
    exact any_after_filter_ne _ _

section ParseLemmas

/-- `filterMap` keeps exactly the elements on which the function succeeds. -/
theorem length_filterMap_eq_countP {α β : Type} (f : α → Option β) :
    ∀ l : List α, (l.filterMap f).length = l.countP (fun x => (f x).isSome) := by
  intro l
  induction l with
  | nil => simp
  | cons a tl ih =>
    cases hf : f a with
    | none => simp [List.filterMap_cons, hf, List.countP_cons, ih]
    | some b => simp [List.filterMap_cons, hf, List.countP_cons, ih]

/-- A way yields a road exactly when it is eligible. -/
theorem wayToRoad_isSome (m : List (ℤ × (ℚ × ℚ))) (e : OElement) :
    (wayToRoad m e).isSome = eligibleWay m e := by
  cases e with
  | node i la lo => simp [wayToRoad, eligibleWay]
  | way wid tags nids =>
    cases hl : lookupTag tags ("highway") with
    | none => simp [wayToRoad, eligibleWay, hl, truthyStr]
    | some hw =>
      by_cases hhw : hw = ""
      · simp [wayToRoad, eligibleWay, hl, truthyStr, hhw]
      · by_cases hco : (resolveNodes m nids).isEmpty
        · simp [wayToRoad, eligibleWay, hl, truthyStr, hhw, hco]
        · simp [wayToRoad, eligibleWay, hl, truthyStr, hhw, hco]

/-- Any road produced from a way carries a nonempty coordinate list and the
recomputed Haversine length of exactly those coordinates. -/
theorem wayToRoad_some (m : List (ℤ × (ℚ × ℚ))) (e : OElement) (r : Road)
    (h : wayToRoad m e = some r) :
    1 ≤ r.coordinates.length ∧ r.length = calculateRoadLength r.coordinates := by
  cases e with
  | node i la lo => simp [wayToRoad] at h
  | way wid tags nids =>
    cases hl : lookupTag tags ("highway") with
    | none => simp [wayToRoad, hl] at h
    | some hw =>
      by_cases hhw : hw = ""
      · simp [wayToRoad, hl, hhw] at h
      · by_cases hco : (resolveNodes m nids).isEmpty
        · simp [wayToRoad, hl, hhw, hco] at h
        · simp [wayToRoad, hl, hhw, hco] at h
          have hlen : 1 ≤ (resolveNodes m nids).length := by
            have : resolveNodes m nids ≠ [] := by
              simpa [List.isEmpty_iff] using hco
            have := List.length_pos.mpr this
            omega
          rw [← h]
          exact ⟨hlen, rfl⟩

end ParseLemmas

/-- C9: In every parsed Overpass response, an element becomes a `Road`
exactly when it is a way with a truthy `highway` tag and at least one node
id resolvable to a coordinate — ways with zero resolved coordinates are
dropped silently by the total parse, not an error — and every produced road
has at least one coordinate and a `length` equal to the Haversine sum over
its own consecutive coordinate pairs, recomputed rather than independently
supplied. -/
theorem C9_parse_invariants (es : List OElement) :
    (parseRoads es).length = es.countP (eligibleWay (nodesMapOf es)) ∧
    ∀ r ∈ parseRoads es,
      1 ≤ r.coordinates.length ∧ r.length = calculateRoadLength r.coordinates := by
  constructor
  · rw [parseRoads, length_filterMap_eq_countP]
    exact List.countP_congr (fun e _ => by rw [wayToRoad_isSome])
  · intro r hr
    rcases List.mem_filterMap.mp hr with ⟨e, _, hfe⟩
    exact wayToRoad_some (nodesMapOf es) e r hfe

/-- A sample Overpass response: one node and one residential way over it. -/
def sampleElements : List OElement :=
  [.node 7 51.455 (-0.195),
   .way 5 [("highway", "residential"), ("name", "Sample Street")] [7, 7]]

/-- The resolved coordinates of the sample way. -/
def sampleCoords : List (ℚ × ℚ) := [(51.455, -0.195), (51.455, -0.195)]

/-- The road the sample response parses to. -/
noncomputable def sampleRoad : Road :=
  { id := "road-5", osmId := "way/5", name := "Sample Street",
    roadType := "Residential", length := calculateRoadLength sampleCoords,
    coordinates := sampleCoords }

/-- The sample response parses to exactly the sample road. -/
theorem parse_sampleElements : parseRoads sampleElements = [sampleRoad] := rfl

/-- Witness for C9: the sample response parses to exactly one road, which is
eligible and satisfies the coordinate and recomputed-length invariants. -/
theorem C9_parse_invariants_witness :
    ((parseRoads sampleElements).length =
      sampleElements.countP (eligibleWay (nodesMapOf sampleElements))) ∧
    (1 ≤ sampleRoad.coordinates.length ∧
      sampleRoad.length = calculateRoadLength sampleRoad.coordinates) :=
  ⟨(C9_parse_invariants sampleElements).1,
   (C9_parse_invariants sampleElements).2 sampleRoad
     (by rw [parse_sampleElements]; exact List.mem_singleton.mpr rfl)⟩

/-- The cache key as claim C4 describes it, for comparison with the code:
the four edges after rounding to 4 decimal places. -/
def cacheKey4Spec (b : Box) : ℤ × ℤ × ℤ × ℤ :=
  (jsToFixed4 b.swLat, jsToFixed4 b.swLng, jsToFixed4 b.neLat, jsToFixed4 b.neLng)

/-- A box whose south-west latitude needs more than 2 decimal places. -/
def c4b1 : Box := ⟨51.451, -0.19, 51.46, -0.18⟩

/-- A second box, distinct from `c4b1` at 4 decimal places. -/
def c4b2 : Box := ⟨51.449, -0.19, 51.46, -0.18⟩

/-- C4 counterexample: two boxes distinct under 4-decimal rounding share one
cache key in the code, so the cache key is not the 4-decimal rounding of the
edges — `toFixed(2)` is used. -/
theorem C4_counterexample :
    cacheKey c4b1 = cacheKey c4b2 ∧ cacheKey4Spec c4b1 ≠ cacheKey4Spec c4b2 := by
  constructor
  · simp only [cacheKey, c4b1, c4b2, jsToFixed2, Prod.ext_iff]
    norm_num
  · simp only [cacheKey4Spec, c4b1, c4b2, jsToFixed4, Prod.ext_iff, ne_eq, not_and]
    norm_num

/-- C4 (amended): the cache key is the box's four edge coordinates after
fixed-precision rounding to 2 decimal places, so two boxes map to the same
cache entry exactly when every edge agrees after 2-decimal rounding; the
exact-key lookup of `getRoadsByBounds` then cannot distinguish them. -/
theorem C4_cache_key_two_decimals :
    (∀ b1 b2 : Box, cacheKey b1 = cacheKey b2 ↔
      (jsToFixed2 b1.swLat = jsToFixed2 b2.swLat ∧
       jsToFixed2 b1.swLng = jsToFixed2 b2.swLng ∧
       jsToFixed2 b1.neLat = jsToFixed2 b2.neLat ∧
       jsToFixed2 b1.neLng = jsToFixed2 b2.neLng)) ∧
    (∀ b1 b2 : Box, cacheKey b1 = cacheKey b2 →
      ∀ cache : Cache, cacheHas cache (cacheKey b1) = cacheHas cache (cacheKey b2)) := by
  constructor
  · intro b1 b2
    simp [cacheKey, Prod.ext_iff]
  · intro b1 b2 hk cache
    rw [hk]

/-- Witness for C4 (amended) at the concrete box pair. -/
theorem C4_cache_key_two_decimals_witness :
    (cacheKey c4b1 = cacheKey c4b2 ↔
      (jsToFixed2 c4b1.swLat = jsToFixed2 c4b2.swLat ∧
       jsToFixed2 c4b1.swLng = jsToFixed2 c4b2.swLng ∧
       jsToFixed2 c4b1.neLat = jsToFixed2 c4b2.neLat ∧
       jsToFixed2 c4b1.neLng = jsToFixed2 c4b2.neLng)) ∧
    cacheHas [] (cacheKey c4b1) = cacheHas [] (cacheKey c4b2) :=
  ⟨C4_cache_key_two_decimals.1 c4b1 c4b2,
   C4_cache_key_two_decimals.2 c4b1 c4b2
     (by simp only [cacheKey, c4b1, c4b2, jsToFixed2, Prod.ext_iff]; norm_num) []⟩

/-- The `expand` contract as claim C6 states it: symmetric growth by
`percent` of each dimension's span, with every negative percent rejected
(`InvalidArgument`, modelled as `none`) instead of returning a box. -/
def expandSpecC6 (b : Box) (percent : ℚ) : Option Box :=
  if percent < 0 then none
  else
    let latBuffer := (b.neLat - b.swLat) * percent / 100
    let lngBuffer := (b.neLng - b.swLng) * percent / 100
    some ⟨b.swLat - latBuffer, b.swLng - lngBuffer,
          b.neLat + latBuffer, b.neLng + lngBuffer⟩

/-- The unit box, a concrete input for the expansion theorems. -/
def boxC6 : Box := ⟨0, 0, 1, 1⟩

/-- C6 counterexample: at percent −100 the claimed contract fails with
`InvalidArgument`, but the code's `expandBounds` happily returns a box
(here the inverted unit box). -/
theorem C6_counterexample :
    expandSpecC6 boxC6 (-100) = none ∧
      expandBounds (some boxC6) (-100) = some ⟨1, 1, 0, 0⟩ := by
  constructor
  · simp only [expandSpecC6, boxC6]
    norm_num
  · simp only [expandBounds, boxC6, Option.some_inj]
    norm_num

/-- C6 (amended): `expandBounds` at percent 0 returns a box equal to the
input; for positive percent it grows the box symmetrically, moving every
edge strictly outward when both spans are positive; and a negative percent
is accepted rather than rejected — it returns a box, with every edge moved
strictly inward when both spans are positive. -/
theorem C6_expand_bounds (b : Box) (p : ℚ) :
    expandBounds (some b) 0 = some b ∧
    (expandBounds (some b) p).isSome = true ∧
    (0 < p → b.swLat < b.neLat → b.swLng < b.neLng →
      ∀ b', expandBounds (some b) p = some b' →
        b'.swLat < b.swLat ∧ b'.swLng < b.swLng ∧
        b.neLat < b'.neLat ∧ b.neLng < b'.neLng) ∧
    (p < 0 → b.swLat < b.neLat → b.swLng < b.neLng →
      ∀ b', expandBounds (some b) p = some b' →
        b.swLat < b'.swLat ∧ b.swLng < b'.swLng ∧
        b'.neLat < b.neLat ∧ b'.neLng < b.neLng) := by
  refine ⟨?_, rfl, ?_, ?_⟩
  · simp [expandBounds]
  · intro hp hlat hlng b' hb'
    simp only [expandBounds, Option.some_inj] at hb'
    have hlatb : 0 < (b.neLat - b.swLat) * p / 100 :=
      div_pos (mul_pos (sub_pos.mpr hlat) hp) (by norm_num)
    have hlngb : 0 < (b.neLng - b.swLng) * p / 100 :=
      div_pos (mul_pos (sub_pos.mpr hlng) hp) (by norm_num)
    rw [← hb']
    refine ⟨?_, ?_, ?_, ?_⟩ <;> simp <;> linarith
  · intro hp hlat hlng b' hb'
    simp only [expandBounds, Option.some_inj] at hb'
    have hlatb : (b.neLat - b.swLat) * p / 100 < 0 :=
      div_neg_of_neg_of_pos (mul_neg_of_pos_of_neg (sub_pos.mpr hlat) hp) (by norm_num)
    have hlngb : (b.neLng - b.swLng) * p / 100 < 0 :=
      div_neg_of_neg_of_pos (mul_neg_of_pos_of_neg (sub_pos.mpr hlng) hp) (by norm_num)
    rw [← hb']
    refine ⟨?_, ?_, ?_, ?_⟩ <;> simp <;> linarith

/-- Witness for C6 (amended): the unit box expanded by 50 % grows strictly
outward, and shrunk by −50 % moves strictly inward. -/
theorem C6_expand_bounds_witness :
    (expandBounds (some boxC6) 0 = some boxC6) ∧
    ((expandBounds (some boxC6) 50).isSome = true) ∧
    ((-1/2 : ℚ) < boxC6.swLat ∧ (-1/2 : ℚ) < boxC6.swLng ∧
      boxC6.neLat < (3/2 : ℚ) ∧ boxC6.neLng < (3/2 : ℚ)) ∧
    (boxC6.swLat < (1/2 : ℚ) ∧ boxC6.swLng < (1/2 : ℚ) ∧
      (1/2 : ℚ) < boxC6.neLat ∧ (1/2 : ℚ) < boxC6.neLng) := by
  refine ⟨(C6_expand_bounds boxC6 50).1, (C6_expand_bounds boxC6 50).2.1, ?_, ?_⟩
  · have h := (C6_expand_bounds boxC6 50).2.2.1 (by norm_num)
      (by simp [boxC6]) (by simp [boxC6]) ⟨-1/2, -1/2, 3/2, 3/2⟩
      (by simp only [expandBounds, boxC6, Option.some_inj]; norm_num)
    exact ⟨h.1, h.2.1, h.2.2.1, h.2.2.2⟩
  · have h := (C6_expand_bounds boxC6 (-50)).2.2.2 (by norm_num)
      (by simp [boxC6]) (by simp [boxC6]) ⟨1/2, 1/2, 1/2, 1/2⟩
      (by simp only [expandBounds, boxC6, Option.some_inj]; norm_num)
    exact ⟨h.1, h.2.1, h.2.2.1, h.2.2.2⟩

section CacheSetLemmas

/-- A key just written by `cacheSet` is present. -/
theorem cacheHas_cacheSet (c : Cache) (k : ℤ × ℤ × ℤ × ℤ) (v : List Road) :
    cacheHas (cacheSet c k v) k = true :=
  any_jsMapSet c k v

/-- Lookup after `cacheSet` returns exactly the stored roads. -/
theorem cacheGetD_cacheSet (c : Cache) (k : ℤ × ℤ × ℤ × ℤ) (v : List Road) :
    cacheGetD (cacheSet c k v) k = v := by
  unfold cacheGetD cacheSet
  rw [find?_jsMapSet]

end CacheSetLemmas

/-- A placeholder road stored in the cache for the C2 counterexample. -/
noncomputable def rA : Road :=
  { id := "road-1", osmId := "way/1", name := "A", roadType := "Other",
    length := 0, coordinates := [] }

/-- A cache holding one entry for the unit box. -/
noncomputable def cacheC2 : Cache := [((0, 0, 100, 100), [rA])]

/-- A request box contained (within the 0.01 margin) in the cached box. -/
def c2b1 : Box := ⟨0, 0, 1.009, 1⟩

/-- A request box with the same rounded key as `c2b1` but outside the
0.01 containment margin of the cached box. -/
def c2b2 : Box := ⟨0, 0, 1.0109, 1⟩

/-- The parsed cached box of the C2 cache entry. -/
theorem keyBox_c2 : keyBox (0, 0, 100, 100) = ⟨0, 0, 1, 1⟩ := by
  simp [keyBox]

/-- The rounded key of `c2b1`. -/
theorem cacheKey_c2b1 : cacheKey c2b1 = (0, 0, 101, 100) := by
  simp [cacheKey, jsToFixed2, c2b1, Prod.ext_iff]
  norm_num

/-- The rounded key of `c2b2` — the same as that of `c2b1`. -/
theorem cacheKey_c2b2 : cacheKey c2b2 = (0, 0, 101, 100) := by
  simp [cacheKey, jsToFixed2, c2b2, Prod.ext_iff]
  norm_num

/-- `c2b1` has no exact-key entry in the C2 cache. -/
theorem cacheHas_c2b1 : cacheHas cacheC2 (cacheKey c2b1) = false := by
  rw [cacheKey_c2b1]
  rfl

/-- `c2b2` has no exact-key entry in the C2 cache. -/
theorem cacheHas_c2b2 : cacheHas cacheC2 (cacheKey c2b2) = false := by
  rw [cacheKey_c2b2]
  rfl

/-- The cached unit box contains `c2b1` within the 0.01 margin. -/
theorem contains_c2b1 : containsWithMargin (keyBox (0, 0, 100, 100)) c2b1 = true := by
  rw [keyBox_c2]
  simp only [containsWithMargin, c2b1, Bool.and_eq_true, decide_eq_true_eq]
  norm_num

/-- The cached unit box does not contain `c2b2` within the 0.01 margin. -/
theorem contains_c2b2 : containsWithMargin (keyBox (0, 0, 100, 100)) c2b2 = false := by
  rw [keyBox_c2]
  rw [Bool.eq_false_iff]
  simp only [ne_eq, containsWithMargin, Bool.and_eq_true, decide_eq_true_eq, not_and]
  intro h1 h2
  have h3 := h1.2
  norm_num [c2b2] at h3

/-- The overlap scan hits for `c2b1`. -/
theorem findContaining_c2b1 : findContaining cacheC2 c2b1 = some [rA] := by
  unfold findContaining cacheC2
  simp [List.find?, contains_c2b1]

/-- The overlap scan misses for `c2b2`. -/
theorem findContaining_c2b2 : findContaining cacheC2 c2b2 = none := by
  unfold findContaining cacheC2
  simp [List.find?, contains_c2b2]

/-- C2 counterexample: the two boxes share one rounded cache key; the first
call resolves successfully via a containment hit (no fetch); yet the second
call with the identical key invokes the fetcher and returns a different
sequence, because containment hits do not populate the exact-key entry and
the containment scan uses the raw (unrounded) box. -/
theorem C2_counterexample :
    cacheKey c2b1 = cacheKey c2b2 ∧
    getRoadsByBounds cacheC2 c2b1 none = ([rA], cacheC2, false) ∧
    (getRoadsByBounds cacheC2 c2b2 (some [])).2.2 = true ∧
    (getRoadsByBounds cacheC2 c2b2 (some [])).1 ≠ [rA] := by
  refine ⟨by rw [cacheKey_c2b1, cacheKey_c2b2], ?_, ?_, ?_⟩
  · exact getRoads_contain cacheC2 c2b1 none [rA] cacheHas_c2b1 findContaining_c2b1
  · rw [getRoads_fetch cacheC2 c2b2 [] cacheHas_c2b2 findContaining_c2b2]
  · rw [getRoads_fetch cacheC2 c2b2 [] cacheHas_c2b2 findContaining_c2b2]
    show parseRoads [] ≠ [rA]
    simp [parseRoads]

/-- C2 (amended): if `getRoadsByBounds` is called twice sequentially with
the identical box and the first call resolved successfully (from the cache,
or with a fetch that did not fail), the second call returns the identical
road sequence, leaves the cache unchanged and does not invoke the fetcher;
moreover every successful resolution via the fetch path populates the
exact-key cache entry. (For a merely key-equal second box this fails —
see the counterexample — because containment hits do not populate the
exact-key entry.) -/
theorem C2_repeat_call_memoized (cache : Cache) (b : Box)
    (fetch1 fetch2 : Option (List OElement))
    (hsucc : (getRoadsByBounds cache b fetch1).2.2 = false ∨ fetch1.isSome = true) :
    getRoadsByBounds (getRoadsByBounds cache b fetch1).2.1 b fetch2 =
      ((getRoadsByBounds cache b fetch1).1,
       (getRoadsByBounds cache b fetch1).2.1, false) ∧
    ((getRoadsByBounds cache b fetch1).2.2 = true →
      cacheHas (getRoadsByBounds cache b fetch1).2.1 (cacheKey b) = true) := by
  by_cases h : cacheHas cache (cacheKey b) = true
  · rw [getRoads_exact cache b fetch1 h]
    dsimp only
    exact ⟨getRoads_exact cache b fetch2 h, by intro hx; cases hx⟩
  · have h' : cacheHas cache (cacheKey b) = false := by
      simpa using h
    rcases hc : findContaining cache b with _ | roads
    · rcases fetch1 with _ | es
      · rw [getRoads_fail cache b h' hc] at hsucc
        rcases hsucc with h1 | h2
        · cases h1
        · cases h2
      · rw [getRoads_fetch cache b es h' hc]
        dsimp only
        constructor
        · rw [getRoads_exact _ b fetch2 (cacheHas_cacheSet cache (cacheKey b) (parseRoads es))]
          rw [cacheGetD_cacheSet]
        · intro _
          exact cacheHas_cacheSet cache (cacheKey b) (parseRoads es)
    · rw [getRoads_contain cache b fetch1 roads h' hc]
      dsimp only
      exact ⟨getRoads_contain cache b fetch2 roads h' hc, by intro hx; cases hx⟩

/-- Witness for C2 (amended): on an empty cache, a successful fetch followed
by a repeat call for the same box replays the cached roads without a second
fetch, and the exact key is populated. -/
theorem C2_repeat_call_memoized_witness :
    (getRoadsByBounds (getRoadsByBounds [] sampleBox (some [])).2.1 sampleBox none =
      ((getRoadsByBounds [] sampleBox (some [])).1,
       (getRoadsByBounds [] sampleBox (some [])).2.1, false)) ∧
    ((getRoadsByBounds [] sampleBox (some [])).2.2 = true →
      cacheHas (getRoadsByBounds [] sampleBox (some [])).2.1 (cacheKey sampleBox) = true) :=
  C2_repeat_call_memoized [] sampleBox (some []) none (Or.inr rfl)

/-- Modelled from the spec: the point-in-box test of the master-cache step
("roads … with at least one point inside the requested box"); no such test
exists in `storage.ts`. -/
def inBoxPoint (c : ℚ × ℚ) (b : Box) : Bool :=
  decide (b.swLat ≤ c.1) && decide (c.1 ≤ b.neLat) &&
  decide (b.swLng ≤ c.2) && decide (c.2 ≤ b.neLng)

/-- Modelled from the spec: the resolution procedure exactly as claim C1
states it, with the borough-wide master cache — a concept absent from
`storage.ts` — made explicit as a parameter. Steps: (1) exact rounded-key
hit; (2) containment hit with 0.01 margin; (3) if a master cache exists,
filter its roads to those with a coordinate inside the requested box, cache
the filtered result under the exact key and return it; (4) fetch and cache
the raw result under the exact key. -/
noncomputable def getRoadsSpecC1 (cache : Cache) (master : Option (List Road))
    (b : Box) (fetch : Option (List OElement)) : List Road × Cache × Bool :=
  let key := cacheKey b
  if cacheHas cache key then (cacheGetD cache key, cache, false)
  else
    match findContaining cache b with
    | some roads => (roads, cache, false)
    | none =>
      match master with
      | some ms =>
        let filtered := ms.filter (fun r => r.coordinates.any (fun c => inBoxPoint c b))
        (filtered, cacheSet cache key filtered, false)
      | none =>
        match fetch with
        | some es =>
          let roads := parseRoads es
          (roads, cacheSet cache key roads, true)
        | none => ([], cache, true)

/-- The master-cache step of the claimed resolution procedure. -/
theorem getRoadsSpecC1_master (cache : Cache) (ms : List Road) (b : Box)
    (fetch : Option (List OElement)) (h : cacheHas cache (cacheKey b) = false)
    (hc : findContaining cache b = none) :
    getRoadsSpecC1 cache (some ms) b fetch =
      (ms.filter (fun r => r.coordinates.any (fun c => inBoxPoint c b)),
       cacheSet cache (cacheKey b)
         (ms.filter (fun r => r.coordinates.any (fun c => inBoxPoint c b))), false) := by
  simp [getRoadsSpecC1, h, hc]

/-- A road of the borough-wide master entry, with one coordinate inside the
C1 request box. -/
noncomputable def rIn : Road :=
  { id := "road-2", osmId := "way/2", name := "B", roadType := "Primary",
    length := 0, coordinates := [(51.405, -0.29)] }

/-- A cache holding a single borough-wide (Wandsworth bounds) entry. -/
noncomputable def cacheC1 : Cache := [((5142, -24, 5149, -15), [rIn])]

/-- A request box outside the borough entry's containment margin but
containing a coordinate of `rIn`. -/
def reqC1 : Box := ⟨51.40, -0.30, 51.41, -0.28⟩

/-- The rounded key of the C1 request box. -/
theorem cacheKey_reqC1 : cacheKey reqC1 = (5140, -30, 5141, -28) := by
  simp [cacheKey, jsToFixed2, reqC1, Prod.ext_iff]
  norm_num

/-- The parsed box of the borough-wide entry. -/
theorem keyBox_kM : keyBox (5142, -24, 5149, -15) = ⟨51.42, -0.24, 51.49, -0.15⟩ := by
  simp [keyBox, Box.mk.injEq]
  norm_num

/-- The C1 request box has no exact-key entry. -/
theorem cacheHas_reqC1 : cacheHas cacheC1 (cacheKey reqC1) = false := by
  rw [cacheKey_reqC1]
  rfl

/-- The borough entry does not contain the C1 request box within 0.01. -/
theorem contains_kM_reqC1 :
    containsWithMargin (keyBox (5142, -24, 5149, -15)) reqC1 = false := by
  rw [keyBox_kM]
  rw [Bool.eq_false_iff]
  simp only [ne_eq, containsWithMargin, Bool.and_eq_true, decide_eq_true_eq, not_and]
  intro h1 h2
  have h3 := h1.1.1
  norm_num [reqC1] at h3

/-- The overlap scan misses for the C1 request box. -/
theorem findContaining_reqC1 : findContaining cacheC1 reqC1 = none := by
  unfold findContaining cacheC1
  simp [List.find?, contains_kM_reqC1]

/-- The master road's coordinate lies inside the C1 request box. -/
theorem inBoxPoint_rIn : inBoxPoint (51.405, -0.29) reqC1 = true := by
  simp only [inBoxPoint, reqC1, Bool.and_eq_true, decide_eq_true_eq]
  norm_num

/-- Filtering the master roads by the C1 request box keeps `rIn`. -/
theorem filter_rIn :
    [rIn].filter (fun r => r.coordinates.any (fun c => inBoxPoint c reqC1)) = [rIn] := by
  simp [rIn, List.filter, inBoxPoint_rIn]

/-- C1 counterexample: with a borough-wide master entry in the cache and a
request box that escapes the containment margin, the claimed resolution
serves the geometrically filtered master roads without fetching and caches
them under the exact key, but the code has no master-cache step: it invokes
the fetcher (here returning an empty, road-free response) and returns the
fetched roads instead. -/
theorem C1_counterexample :
    (getRoadsByBounds cacheC1 reqC1 (some [])).1 = [] ∧
    (getRoadsByBounds cacheC1 reqC1 (some [])).2.2 = true ∧
    getRoadsSpecC1 cacheC1 (some [rIn]) reqC1 (some []) =
      ([rIn], cacheSet cacheC1 (cacheKey reqC1) [rIn], false) ∧
    (getRoadsByBounds cacheC1 reqC1 (some [])).1 ≠
      (getRoadsSpecC1 cacheC1 (some [rIn]) reqC1 (some [])).1 := by
  have hcode := getRoads_fetch cacheC1 reqC1 [] cacheHas_reqC1 findContaining_reqC1
  have hspec := getRoadsSpecC1_master cacheC1 [rIn] reqC1 (some [])
    cacheHas_reqC1 findContaining_reqC1
  rw [filter_rIn] at hspec
  refine ⟨?_, ?_, hspec, ?_⟩
  · rw [hcode]
    show parseRoads [] = []
    simp [parseRoads]
  · rw [hcode]
  · rw [hcode, hspec]
    show parseRoads [] ≠ [rIn]
    simp [parseRoads]

/-- C1 (amended): `getRoadsByBounds` resolves in this priority, each step
tried only if the previous misses: (1) an exact rounded-key hit is returned
verbatim; (2) the first existing entry whose box contains the requested box
within a 0.01-degree absolute margin on every edge is returned as-is
(a super-set); (3) otherwise the fetcher is called and, on success, its raw
parsed result is cached under the exact key and returned. There is no
master-cache step. -/
theorem C1_resolution_order (cache : Cache) (b : Box) (fetch : Option (List OElement)) :
    (cacheHas cache (cacheKey b) = true →
      getRoadsByBounds cache b fetch = (cacheGetD cache (cacheKey b), cache, false)) ∧
    (cacheHas cache (cacheKey b) = false →
      ∀ roads, findContaining cache b = some roads →
        getRoadsByBounds cache b fetch = (roads, cache, false)) ∧
    (cacheHas cache (cacheKey b) = false → findContaining cache b = none →
      ∀ es, fetch = some es →
        getRoadsByBounds cache b fetch =
          (parseRoads es, cacheSet cache (cacheKey b) (parseRoads es), true)) :=
  ⟨fun h => getRoads_exact cache b fetch h,
   fun h roads hc => getRoads_contain cache b fetch roads h hc,
   fun h hc es hf => by rw [hf]; exact getRoads_fetch cache b es h hc⟩

/-- Witness for C1 (amended): each of the three paths at a concrete input —
an exact hit after `cacheSet`, the containment hit of the C2 cache, and a
fetch on the empty cache. -/
theorem C1_resolution_order_witness :
    (getRoadsByBounds (cacheSet [] (cacheKey sampleBox) []) sampleBox none =
      (cacheGetD (cacheSet [] (cacheKey sampleBox) []) (cacheKey sampleBox),
       cacheSet [] (cacheKey sampleBox) [], false)) ∧
    (getRoadsByBounds cacheC2 c2b1 none = ([rA], cacheC2, false)) ∧
    (getRoadsByBounds [] sampleBox (some []) =
      (parseRoads [], cacheSet [] (cacheKey sampleBox) (parseRoads []), true)) :=
  ⟨(C1_resolution_order (cacheSet [] (cacheKey sampleBox) []) sampleBox none).1
     (cacheHas_cacheSet [] (cacheKey sampleBox) []),
   (C1_resolution_order cacheC2 c2b1 none).2.1 cacheHas_c2b1 [rA] findContaining_c2b1,
   (C1_resolution_order [] sampleBox (some [])).2.2 rfl rfl [] rfl⟩

/-- The containment formula exactly as claim C5 words it: each edge relaxed
outward by slack `|outerEdgeValue| * (1 - t)` — the absolute value taken of
the edge alone, not of the whole product. -/
def containsSpecC5 (n e : Box) (t : ℚ) : Prop :=
  e.swLat - |e.swLat| * (1 - t) ≤ n.swLat ∧
  e.swLng - |e.swLng| * (1 - t) ≤ n.swLng ∧
  n.neLat ≤ e.neLat + |e.neLat| * (1 - t) ∧
  n.neLng ≤ e.neLng + |e.neLng| * (1 - t)

/-- C5 counterexample: at tolerance 2 the code's slack
`Math.abs(edge * (1 - t))` is nonnegative while the claim's
`|edge| * (1 - t)` is negative, so the two sides of the claimed equivalence
disagree: the code accepts this pair, the claimed formula rejects it. -/
theorem C5_counterexample :
    isWithinExistingBounds (some ⟨1/2, 0, 0, 0⟩) (some ⟨1, 0, 0, 0⟩) 2 = true ∧
    ¬ containsSpecC5 ⟨1/2, 0, 0, 0⟩ ⟨1, 0, 0, 0⟩ 2 := by
  constructor
  · simp only [isWithinExistingBounds, Bool.and_eq_true, decide_eq_true_eq]
    norm_num
  · intro h
    have h1 := h.1
    norm_num at h1

/-- C5 (amended): `isWithinExistingBounds` returns true exactly when, for
each of the four edges, the inner box does not exceed the outer edge relaxed
outward by slack `|outerEdgeValue * (1 - t)|` — the absolute value of the
whole product, which agrees with the claim's `|outerEdgeValue| * (1 - t)`
for every tolerance `t ≤ 1`, in particular the used 0.8. On a raw bounds
event contained (tolerance 0.8) in the last queried expanded bounds, the
throttling effect schedules no new apply and leaves its state unchanged
except for clearing any pending debounce timer; with no timer pending the
state is untouched. -/
theorem C5_containment_and_throttle :
    (∀ n e : Box, ∀ t : ℚ,
      isWithinExistingBounds (some n) (some e) t = true ↔
        (e.swLat - |e.swLat * (1 - t)| ≤ n.swLat ∧
         e.swLng - |e.swLng * (1 - t)| ≤ n.swLng ∧
         n.neLat ≤ e.neLat + |e.neLat * (1 - t)| ∧
         n.neLng ≤ e.neLng + |e.neLng * (1 - t)|)) ∧
    (∀ s : ThrottleState, ∀ t : ℕ, ∀ b : Box,
      isWithinExistingBounds (some b) (flushDue s t).lastQueried (4/5) = true →
      handleEvent s t (some b) = { flushDue s t with pending := none }) ∧
    (∀ s : ThrottleState, ∀ t : ℕ, ∀ b : Box,
      s.pending = none →
      isWithinExistingBounds (some b) s.lastQueried (4/5) = true →
      handleEvent s t (some b) = s) := by
  refine ⟨?_, ?_, ?_⟩
  · intro n e t
    simp [isWithinExistingBounds, and_assoc]
  · intro s t b hin
    simp [handleEvent, hin]
  · intro s t b hp hin
    rcases s with ⟨pending, debounced, lastQueried, initialLoad, applies, lastQueryTime⟩
    simp only at hp
    subst hp
    simp only [flushDue] at hin ⊢
    simp [handleEvent, flushDue, hin]

/-- A resting throttle state with previously queried bounds, for the C5
witness. -/
def s0C5 : ThrottleState :=
  { pending := none, debounced := none, lastQueried := some ⟨0, 0, 1, 1⟩,
    initialLoad := false, applies := [], lastQueryTime := 0 }

/-- The raw bounds of the C5 witness, well inside the queried bounds. -/
def bbC5 : Box := ⟨1/10, 1/10, 9/10, 9/10⟩

/-- Witness for C5 (amended) at concrete boxes and a concrete resting state:
the formula instance and the untouched-state behaviour. -/
theorem C5_containment_and_throttle_witness :
    (isWithinExistingBounds (some bbC5) (some ⟨0, 0, 1, 1⟩) (4/5) = true ↔
      ((0 : ℚ) - |(0 : ℚ) * (1 - 4/5)| ≤ bbC5.swLat ∧
       (0 : ℚ) - |(0 : ℚ) * (1 - 4/5)| ≤ bbC5.swLng ∧
       bbC5.neLat ≤ (1 : ℚ) + |(1 : ℚ) * (1 - 4/5)| ∧
       bbC5.neLng ≤ (1 : ℚ) + |(1 : ℚ) * (1 - 4/5)|)) ∧
    handleEvent s0C5 5 (some bbC5) = { flushDue s0C5 5 with pending := none } ∧
    handleEvent s0C5 5 (some bbC5) = s0C5 := by
  have hin : isWithinExistingBounds (some bbC5) s0C5.lastQueried (4/5) = true := by
    simp only [s0C5, bbC5, isWithinExistingBounds, Bool.and_eq_true, decide_eq_true_eq]
    norm_num [abs_of_nonneg]
  have hin2 : isWithinExistingBounds (some bbC5) (flushDue s0C5 5).lastQueried (4/5) = true := by
    exact hin
  exact ⟨C5_containment_and_throttle.1 bbC5 ⟨0, 0, 1, 1⟩ (4/5),
         C5_containment_and_throttle.2.1 s0C5 5 bbC5 hin2,
         C5_containment_and_throttle.2.2 s0C5 5 bbC5 rfl hin⟩

/-- Any apply is at least 10.5 s after the third apply before it
(list most-recent-first). -/
def GapOK (l : List ℕ) : Prop :=
  ∀ i b a, l.get? i = some b → l.get? (i + 3) = some a → a + 10500 ≤ b

/-- Constraints on a pending fire time `f` over the apply history: at least
500 ms after the most recent apply and at least 10.5 s after the third most
recent one. -/
def PendOK (f : ℕ) (l : List ℕ) : Prop :=
  (∀ a tl, l = a :: tl → a + 500 ≤ f) ∧
  (∀ a, l.get? 2 = some a → a + 10500 ≤ f)

/-- Invariant of the throttle state at current time `τ` (no earlier event
can arrive): apply times strictly decreasing and in the past, the last-query
time is the most recent apply (or the mount time), an initial-load state has
no applies, the gap property holds, and any pending timer is in the future
and respects `PendOK`. -/
structure Inv (τ : ℕ) (s : ThrottleState) : Prop where
  chain : List.Chain' (· > ·) s.applies
  le_tau : ∀ a ∈ s.applies, a ≤ τ
  lq_le : s.lastQueryTime ≤ τ
  lq_head : ∀ a tl, s.applies = a :: tl → s.lastQueryTime = a
  init_empty : s.initialLoad = true → s.applies = []
  gap : GapOK s.applies
  pend : ∀ f b, s.pending = some (f, b) → τ ≤ f ∧ PendOK f s.applies

/-- The tail of a gap-respecting history respects the gaps. -/
theorem GapOK.tail {x : ℕ} {l : List ℕ} (h : GapOK (x :: l)) : GapOK l := by
  intro i b a h1 h2
  refine h (i + 1) b a (by simpa using h1) ?_
  rw [show i + 1 + 3 = (i + 3) + 1 from by omega]
  simpa using h2

/-- Prepending a `PendOK` fire time preserves sortedness and the gaps. -/
theorem chain_gap_cons (l : List ℕ) (f : ℕ)
    (hchain : List.Chain' (· > ·) l) (hgap : GapOK l) (hpend : PendOK f l) :
    List.Chain' (· > ·) (f :: l) ∧ GapOK (f :: l) := by
  constructor
  · cases l with
    | nil => simp
    | cons a tl =>
      rw [List.chain'_cons]
      exact ⟨by have := hpend.1 a tl rfl; omega, hchain⟩
  · intro i b a h1 h2
    cases i with
    | zero =>
      simp only [List.get?_cons_zero, Option.some.injEq] at h1
      have h2' : l.get? 2 = some a := by simpa using h2
      have := hpend.2 a h2'
      omega
    | succ j =>
      have h1' : l.get? j = some b := by simpa using h1
      have h2' : l.get? (j + 3) = some a := by
        rw [show j + 1 + 3 = (j + 3) + 1 from by omega] at h2
        simpa using h2
      exact hgap j b a h1' h2'

/-- Firing a `PendOK` timer due at or before the current time `t` yields the
invariant at `t`. -/
theorem inv_fireApply (τ t f : ℕ) (s : ThrottleState) (b : Box)
    (hInv : Inv τ s) (hτt : τ ≤ t) (hft : f ≤ t) (hpend : PendOK f s.applies) :
    Inv t (fireApply s f b) := by
  have hcg := chain_gap_cons s.applies f hInv.chain hInv.gap hpend
  refine ⟨hcg.1, ?_, hft, ?_, ?_, hcg.2, ?_⟩
  · intro x hx
    rcases List.mem_cons.mp hx with h | h
    · omega
    · have := hInv.le_tau x h
      omega
  · intro a tl heq
    have heq' : f :: s.applies = a :: tl := heq
    simp only [List.cons.injEq] at heq'
    exact heq'.1
  · intro h
    cases h
  · intro f' b' h
    cases h

/-- Flushing a due timer moves the invariant forward in time. -/
theorem inv_flushDue (τ t : ℕ) (s : ThrottleState)
    (hInv : Inv τ s) (hτ : τ ≤ t) : Inv t (flushDue s t) := by
  rcases hp : s.pending with _ | fb
  · have hflush : flushDue s t = s := by
      simp [flushDue, hp]
    rw [hflush]
    refine ⟨hInv.chain, ?_, by have := hInv.lq_le; omega, hInv.lq_head,
      hInv.init_empty, hInv.gap, ?_⟩
    · intro a ha
      have := hInv.le_tau a ha
      omega
    · intro f b hfb
      rw [hp] at hfb
      cases hfb
  · rcases fb with ⟨f, b⟩
    have hpe := hInv.pend f b hp
    by_cases hfle : f ≤ t
    · have hflush : flushDue s t = fireApply s f b := by
        simp [flushDue, hp, hfle]
      rw [hflush]
      exact inv_fireApply τ t f s b hInv hτ hfle hpe.2
    · have hflush : flushDue s t = s := by
        simp [flushDue, hp, hfle]
      rw [hflush]
      refine ⟨hInv.chain, ?_, by have := hInv.lq_le; omega, hInv.lq_head,
        hInv.init_empty, hInv.gap, ?_⟩
      · intro a ha
        have := hInv.le_tau a ha
        omega
      · intro f' b' hfb
        rw [hp] at hfb
        have h1 : f' = f ∧ b' = b := by
          simpa [Prod.ext_iff] using hfb.symm
        obtain ⟨rfl, rfl⟩ := h1
        exact ⟨by omega, hpe.2⟩

/-- Outside initial load, the debounce delay is at least 500 ms. -/
theorem computeDelay_ge_500 (s : ThrottleState) (t : ℕ)
    (hinit : s.initialLoad = false) : 500 ≤ computeDelay s t := by
  unfold computeDelay
  simp only [hinit, Bool.false_eq_true, if_false]
  split
  · omega
  · omega

/-- A list with a third element splits into three leading elements. -/
theorem get2_destruct (l : List ℕ) (a3 : ℕ) (h : l.get? 2 = some a3) :
    ∃ x y tl, l = x :: y :: a3 :: tl := by
  match l with
  | [] => simp at h
  | [x] => simp at h
  | [x, y] => simp at h
  | x :: y :: z :: tl =>
    have hz : z = a3 := by simpa using h
    exact ⟨x, y, tl, by rw [hz]⟩

/-- Three leading elements inside the window put the rolling counter at 3. -/
theorem trailingCount_ge_three (t x y z : ℕ) (tl : List ℕ)
    (hx : t - x < 10000) (hy : t - y < 10000) (hz : t - z < 10000) :
    3 ≤ trailingCount (x :: y :: z :: tl) t := by
  simp only [trailingCount, List.filter_cons, hx, hy, hz, decide_true_eq_true,
    if_true, List.length_cons, decide_eq_true_eq]
  omega

/-- In a strictly descending list, a later position holds a smaller or equal
value. -/
theorem chain'_le_of_get? (l : List ℕ) (h : List.Chain' (· > ·) l)
    (i j x y : ℕ) (hij : i ≤ j)
    (hx : l.get? i = some x) (hy : l.get? j = some y) : y ≤ x := by
  have hp : List.Pairwise (· > ·) l := List.chain'_iff_pairwise.mp h
  rw [List.get?_eq_some] at hx hy
  obtain ⟨hi, hgx⟩ := hx
  obtain ⟨hj, hgy⟩ := hy
  rcases Nat.eq_or_lt_of_le hij with rfl | hlt
  · rw [← hgx, ← hgy]
  · have := List.pairwise_iff_get.mp hp ⟨i, hi⟩ ⟨j, hj⟩ hlt
    rw [hgx, hgy] at this
    omega

/-- `handleEvent` on a null bounds value only clears the timer and the
debounced bounds. -/
theorem handleEvent_none (s : ThrottleState) (t : ℕ) :
    handleEvent s t none = { flushDue s t with pending := none, debounced := none } :=
  rfl

/-- `handleEvent` on a contained bounds value only clears the timer. -/
theorem handleEvent_within (s : ThrottleState) (t : ℕ) (b : Box)
    (hin : isWithinExistingBounds (some b) (flushDue s t).lastQueried (4/5) = true) :
    handleEvent s t (some b) = { flushDue s t with pending := none } := by
  simp [handleEvent, hin]

/-- `handleEvent` on a non-contained bounds value schedules the debounced
apply at `t + computeDelay`. -/
theorem handleEvent_schedule (s : ThrottleState) (t : ℕ) (b : Box)
    (hin : isWithinExistingBounds (some b) (flushDue s t).lastQueried (4/5) = false) :
    handleEvent s t (some b) =
      { flushDue s t with
        pending := some (t + computeDelay (flushDue s t) t, b) } := by
  simp [handleEvent, hin]

/-- Processing one event at time `t ≥ τ` preserves the invariant at `t`. -/
theorem inv_handleEvent (τ t : ℕ) (s : ThrottleState) (ev : Option Box)
    (hInv : Inv τ s) (hτ : τ ≤ t) : Inv t (handleEvent s t ev) := by
  have h1 : Inv t (flushDue s t) := inv_flushDue τ t s hInv hτ
  cases ev with
  | none =>
    rw [handleEvent_none]
    exact ⟨h1.chain, h1.le_tau, h1.lq_le, h1.lq_head, h1.init_empty, h1.gap,
      fun f b h => by cases h⟩
  | some b =>
    cases hin : isWithinExistingBounds (some b) (flushDue s t).lastQueried (4/5) with
    | true =>
      rw [handleEvent_within s t b hin]
      exact ⟨h1.chain, h1.le_tau, h1.lq_le, h1.lq_head, h1.init_empty, h1.gap,
        fun f b h => by cases h⟩
    | false =>
      rw [handleEvent_schedule s t b hin]
      generalize hgen : flushDue s t = s1 at h1 ⊢
      refine ⟨h1.chain, h1.le_tau, h1.lq_le, h1.lq_head, h1.init_empty, h1.gap, ?_⟩
      intro f b' hfb
      have hfb2 : some ((t + computeDelay s1 t, b)) = some ((f, b')) := hfb
      rw [Option.some_inj] at hfb2
      have hf : t + computeDelay s1 t = f := congrArg Prod.fst hfb2
      subst hf
      refine ⟨Nat.le_add_right t _, ?_, ?_⟩
      · intro a tl heq
        cases hinit : s1.initialLoad with
        | true =>
          rw [h1.init_empty hinit] at heq
          cases heq
        | false =>
          have hd := computeDelay_ge_500 s1 t hinit
          have ha : a ≤ t := h1.le_tau a (heq ▸ List.mem_cons_self a tl)
          omega
      · intro a3 hget
        obtain ⟨x, y, tl, hl⟩ := get2_destruct s1.applies a3 hget
        have hlq : s1.lastQueryTime = x := h1.lq_head x (y :: a3 :: tl) hl
        have hxa3 : a3 ≤ x :=
          chain'_le_of_get? s1.applies h1.chain 0 2 x a3 (by omega)
            (by rw [hl]; rfl) hget
        have hxmem : x ∈ s1.applies := by
          rw [hl]
          exact List.mem_cons_self x (y :: a3 :: tl)
        have hxt : x ≤ t := h1.le_tau x hxmem
        have hinitf : s1.initialLoad = false := by
          cases hinit : s1.initialLoad
          · rfl
          · rw [h1.init_empty hinit] at hl
            cases hl
        by_cases hcond : 3 ≤ trailingCount s1.applies t ∧ t - s1.lastQueryTime < 10000
        · have hd : computeDelay s1 t = 10000 - (t - s1.lastQueryTime) + 500 := by
            simp [computeDelay, hcond]
          have h2' := hcond.2
          rw [hlq] at h2'
          rw [hd, hlq]
          omega
        · have hd : computeDelay s1 t = 500 := by
            simp [computeDelay, hcond, hinitf]
          rw [hd]
          rcases not_and_or.mp hcond with hc1 | hc2
          · by_contra hcon
            push_neg at hcon
            have hchain : List.Chain' (· > ·) (x :: y :: a3 :: tl) := by
              have hc' := h1.chain
              rw [hl] at hc'
              exact hc'
            rw [List.chain'_cons] at hchain
            have hxy : x > y := hchain.1
            have hchain2 := hchain.2
            rw [List.chain'_cons] at hchain2
            have hya3 : y > a3 := hchain2.1
            have hc : 3 ≤ trailingCount (x :: y :: a3 :: tl) t :=
              trailingCount_ge_three t x y a3 tl (by omega) (by omega) (by omega)
            rw [hl] at hc1
            exact hc1 hc
          · rw [hlq] at hc2
            omega

/-- One filtered cons contributes at most one element. -/
theorem length_filter_cons_le {α : Type} (p : α → Bool) (x : α) (xs : List α) :
    (List.filter p (x :: xs)).length ≤ 1 + (List.filter p xs).length := by
  rw [List.filter_cons]
  split_ifs
  · rw [List.length_cons]
    omega
  · omega

/-- In a strictly descending apply history respecting the gaps, any closed
window of width 10000 contains at most 3 applies. -/
theorem window_le_three (w : ℕ) :
    ∀ l : List ℕ, List.Chain' (· > ·) l → GapOK l →
      (l.filter (fun a => decide (w ≤ a ∧ a ≤ w + 10000))).length ≤ 3 := by
  intro l
  induction l with
  | nil =>
    intro _ _
    simp
  | cons a tl ih =>
    intro hchain hgap
    have hchain' : List.Chain' (· > ·) tl := hchain.tail
    have hgap' : GapOK tl := GapOK.tail hgap
    by_cases hp : (w ≤ a ∧ a ≤ w + 10000)
    · rw [List.filter_cons]
      rw [if_pos (by simpa using hp)]
      rw [List.length_cons]
      have htl : (tl.filter (fun z => decide (w ≤ z ∧ z ≤ w + 10000))).length ≤ 2 := by
        cases tl with
        | nil => simp
        | cons b1 tl1 =>
          cases tl1 with
          | nil =>
            have := List.length_filter_le
              (fun z => decide (w ≤ z ∧ z ≤ w + 10000)) [b1]
            simp only [List.length_cons, List.length_nil] at this
            omega
          | cons b2 tl2 =>
            cases tl2 with
            | nil =>
              have := List.length_filter_le
                (fun z => decide (w ≤ z ∧ z ≤ w + 10000)) [b1, b2]
              simp only [List.length_cons, List.length_nil] at this
              omega
            | cons d tl3 =>
              have hda : d + 10500 ≤ a := hgap 0 a d rfl rfl
              have hchain3 : List.Chain' (· > ·) (d :: tl3) :=
                ((hchain.tail).tail).tail
              have hpw := List.chain'_iff_pairwise.mp hchain3
              have hnil : (d :: tl3).filter
                  (fun z => decide (w ≤ z ∧ z ≤ w + 10000)) = [] := by
                rw [List.filter_eq_nil_iff]
                intro z hz
                simp only [decide_eq_true_eq]
                intro hcontra
                have hzd : z ≤ d := by
                  rcases List.mem_cons.mp hz with rfl | hz'
                  · omega
                  · have := (List.pairwise_cons.mp hpw).1 z hz'
                    omega
                have hp2 := hp.2
                omega
              have t1 := length_filter_cons_le
                (fun z => decide (w ≤ z ∧ z ≤ w + 10000)) b1 (b2 :: d :: tl3)
              have t2 := length_filter_cons_le
                (fun z => decide (w ≤ z ∧ z ≤ w + 10000)) b2 (d :: tl3)
              rw [hnil] at t2
              simp only [List.length_nil] at t2
              omega
      omega
    · rw [List.filter_cons]
      rw [if_neg (by simpa using hp)]
      exact ih hchain' hgap'

/-- The mount-time state satisfies the invariant. -/
theorem inv_init (t0 : ℕ) : Inv t0 (initThrottle t0) := by
  refine ⟨by simp [initThrottle], by simp [initThrottle], le_refl _, ?_, fun _ => rfl, ?_, ?_⟩
  · intro a tl h
    cases h
  · intro i b a h1 h2
    simp [initThrottle] at h1
  · intro f b h
    cases h

/-- Folding a time-ordered event list preserves the invariant at some final
time. -/
theorem inv_runEvents :
    ∀ (events : List (ℕ × Option Box)) (τ : ℕ) (s : ThrottleState),
      Inv τ s → List.Chain (· ≤ ·) τ (events.map Prod.fst) →
      ∃ τ', Inv τ' (runEvents s events) := by
  intro events
  induction events with
  | nil =>
    intro τ s h _
    exact ⟨τ, h⟩
  | cons e tl ih =>
    intro τ s h hchain
    rw [List.map_cons, List.chain_cons] at hchain
    exact ih e.1 (handleEvent s e.1 e.2) (inv_handleEvent τ e.1 s e.2 h hchain.1) hchain.2

/-- The final flush keeps the history sorted and gap-respecting. -/
theorem chain_gap_finalFlush (s : ThrottleState) (τ : ℕ) (hInv : Inv τ s) :
    List.Chain' (· > ·) (finalFlush s).applies ∧ GapOK (finalFlush s).applies := by
  rcases hp : s.pending with _ | fb
  · have hff : finalFlush s = s := by
      simp [finalFlush, hp]
    rw [hff]
    exact ⟨hInv.chain, hInv.gap⟩
  · rcases fb with ⟨f, b⟩
    have hff : finalFlush s = fireApply s f b := by
      simp [finalFlush, hp]
    rw [hff]
    exact chain_gap_cons s.applies f hInv.chain hInv.gap (hInv.pend f b hp).2

/-- C7: For every time-ordered sequence of raw bounds events, the throttling
layer issues no more than 3 applied/queried bounds values within any closed
rolling 10-second window: the apply times are strictly decreasing
(most recent first) and any width-10000 window holds at most 3 of them.
Moreover, whenever the rolling counter — which decrements one unit 10 s
after each increment, so it equals the number of applies in the trailing
10-second window — has reached 3 and the last apply is less than 10 s old,
the debounce delay is extended to `(10 s − elapsed since the window's most
recent apply) + 500 ms`. -/
theorem C7_rate_limit (t0 : ℕ) (events : List (ℕ × Option Box))
    (hmono : List.Chain (· ≤ ·) t0 (events.map Prod.fst)) :
    List.Chain' (· > ·) (runThrottle t0 events).applies ∧
    (∀ w : ℕ, ((runThrottle t0 events).applies.filter
        (fun a => decide (w ≤ a ∧ a ≤ w + 10000))).length ≤ 3) ∧
    (∀ s : ThrottleState, ∀ t : ℕ,
      3 ≤ trailingCount s.applies t → t - s.lastQueryTime < 10000 →
      computeDelay s t = 10000 - (t - s.lastQueryTime) + 500) := by
  obtain ⟨τ, hInv⟩ := inv_runEvents events t0 (initThrottle t0) (inv_init t0) hmono
  have hfin := chain_gap_finalFlush (runEvents (initThrottle t0) events) τ hInv
  refine ⟨hfin.1, fun w => window_le_three w _ hfin.1 hfin.2, ?_⟩
  intro s t h1 h2
  simp [computeDelay, h1, h2]

/-- Two quick pan events for the C7 witness. -/
def eventsC7 : List (ℕ × Option Box) :=
  [(0, some ⟨0, 0, 1, 1⟩), (600, some ⟨5, 5, 6, 6⟩)]

/-- A throttle state with three recent applies for the C7 witness. -/
def sC7 : ThrottleState :=
  { pending := none, debounced := none, lastQueried := none,
    initialLoad := false, applies := [900, 600, 300], lastQueryTime := 900 }

/-- Witness for C7: a concrete two-event session yields a sorted history
with at most 3 applies in the window starting at 0, and a state with three
applies in the last 10 s extends the debounce delay by the stated formula. -/
theorem C7_rate_limit_witness :
    List.Chain (· ≤ ·) 0 (eventsC7.map Prod.fst) ∧
    List.Chain' (· > ·) (runThrottle 0 eventsC7).applies ∧
    ((runThrottle 0 eventsC7).applies.filter
        (fun a => decide (0 ≤ a ∧ a ≤ 0 + 10000))).length ≤ 3 ∧
    computeDelay sC7 1000 = 10000 - (1000 - sC7.lastQueryTime) + 500 := by
  have hmono : List.Chain (· ≤ ·) 0 (eventsC7.map Prod.fst) := by
    simp [eventsC7, List.chain_cons]
  exact ⟨hmono, (C7_rate_limit 0 eventsC7 hmono).1,
    (C7_rate_limit 0 eventsC7 hmono).2.1 0,
    (C7_rate_limit 0 eventsC7 hmono).2.2 sC7 1000 (by decide) (by decide)⟩

end WandsMap
